import Mathlib

/-!
Verification of the edgie tiered file cache (src/common/filecache.go,
src/service/lib.go, src/main.go, plus the legacy service variant).

The Go code is shallowly embedded: byte buffers are `List Nat`, the
`xsync.MapOf` index is an association list, the `container/list` MRU list
together with `mruMap` is a plain `List String` (front = most recently
used), `int64` counters are `Int`, and filesystem / S3 effects are driven
by explicit oracles (which paths fail to write, remove or upload).
Go's `==` comparison of `error` values compares identities, so errors are
an inductive type where only the sentinel `errNotExist` equals
`os.ErrNotExist`; a failed `os.Stat`/`os.ReadFile` yields a distinct
`pathError` (Go returns a `*fs.PathError`, never the bare sentinel).
-/

/-- Error values as compared by Go's `==` on `error`:
`errNotExist` is the sentinel `os.ErrNotExist`; `pathError` stands for a
`*fs.PathError` (e.g. from `os.Stat`/`os.ReadFile`), which is never `==`
to the sentinel; `ioError` and `s3Error` are other distinct errors. -/
inductive GoErr where
  | errNotExist
  | pathError
  | ioError
  | s3Error
deriving Repr, DecidableEq

/-- `fileCacheEntry` from src/common/filecache.go:87-92 (the mutex is a
runtime artifact and has no sequential content). -/
structure FileCacheEntry where
  Data : List Nat
  InMemory : Bool
  Size : Int
deriving Repr, DecidableEq

/-- Relevant fields of `FileCacheConfig` (src/common/filecache.go:20-25). -/
structure FileCacheConfig where
  DiskBytesMax : Int
  RAMBytesMax : Int
deriving Repr, DecidableEq

/-- Association-list lookup keyed by `String` (the `xsync.MapOf` index). -/
def alookup (l : List (String × FileCacheEntry)) (k : String) : Option FileCacheEntry :=
  match l with
  | [] => none
  | (a, e) :: rest => if a = k then some e else alookup rest k

/-- Association-list store: replace the binding in place if the key is
present, else add a new binding (map `Store`). -/
def astore (l : List (String × FileCacheEntry)) (k : String) (e : FileCacheEntry) :
    List (String × FileCacheEntry) :=
  match l with
  | [] => [(k, e)]
  | (a, e') :: rest => if a = k then (a, e) :: rest else (a, e') :: astore rest k e

/-- Association-list delete of every binding of `k` (map `Delete`). -/
def adelete (l : List (String × FileCacheEntry)) (k : String) :
    List (String × FileCacheEntry) :=
  match l with
  | [] => []
  | (a, e') :: rest => if a = k then adelete rest k else (a, e') :: adelete rest k

/-- The keys of the index, in list order. -/
def keysOf (l : List (String × FileCacheEntry)) : List String :=
  l.map Prod.fst

/-- Sum of `Size` over entries with `InMemory = true`. -/
def sumMemSizes (l : List (String × FileCacheEntry)) : Int :=
  (l.map (fun p => if p.2.InMemory then p.2.Size else 0)).sum

/-- Sum of `Size` over all index entries. -/
def sumAllSizes (l : List (String × FileCacheEntry)) : Int :=
  (l.map (fun p => p.2.Size)).sum

/-- The backing directory, plus oracles saying which paths fail on
`os.Remove` and `os.WriteFile`. -/
structure Disk where
  files : List (String × List Nat)
  removeFails : List String
  writeFails : List String
deriving Repr, DecidableEq

/-- `os.ReadFile` keyed by relative path: the content if the file exists. -/
def diskRead (d : Disk) (k : String) : Option (List Nat) :=
  go d.files
where go : List (String × List Nat) → Option (List Nat)
  | [] => none
  | (a, v) :: rest => if a = k then some v else go rest

/-- `os.WriteFile` (full overwrite); failure handled by the caller via
`Disk.writeFails`. -/
def diskWrite (d : Disk) (k : String) (v : List Nat) : Disk :=
  { d with files := go d.files }
where go : List (String × List Nat) → List (String × List Nat)
  | [] => [(k, v)]
  | (a, v') :: rest => if a = k then (a, v) :: rest else (a, v') :: go rest

/-- `os.Remove` on success: the file is gone. -/
def diskDelete (d : Disk) (k : String) : Disk :=
  { d with files := go d.files }
where go : List (String × List Nat) → List (String × List Nat)
  | [] => []
  | (a, v') :: rest => if a = k then go rest else (a, v') :: go rest

/-- The sequential fields of `FileCache` (src/common/filecache.go:94-103). -/
structure FileCache where
  index : List (String × FileCacheEntry)
  mruList : List String
  usedDiskBytes : Int
  usedMemoryBytes : Int
deriving Repr, DecidableEq

/-- A cache together with its backing directory. -/
structure CacheSt where
  fc : FileCache
  disk : Disk
deriving Repr, DecidableEq

/-- `updateMRU` (src/common/filecache.go:244-251): move to front if
present, else push front. -/
def updateMRU (k : String) (l : List String) : List String :=
  if k ∈ l then k :: l.erase k else k :: l

/-- `FileCache.init` (src/common/filecache.go:117-157): scan the backing
directory, index every file with `Data = nil`, `InMemory = false` and
`Size` from `os.Stat`, accumulating `usedDiskBytes`. -/
def initGo (d : Disk) : CacheSt :=
  { fc := { index := d.files.map (fun p => (p.1, ⟨[], false, (p.2.length : Int)⟩))
          , mruList := []
          , usedDiskBytes := (d.files.map (fun p => ((p.2.length : Nat) : Int))).sum
          , usedMemoryBytes := 0 }
  , disk := d }

/-- `FileCache.Read` (src/common/filecache.go:159-195). Returns the bytes
handed to `bytes.NewReader` plus the successor state. -/
def readGo (k : String) (s : CacheSt) : Except GoErr (List Nat) × CacheSt :=
  match alookup s.fc.index k with
  | none => (.error .errNotExist, s)
  | some e =>
    if e.InMemory then
      (.ok e.Data, { s with fc := { s.fc with mruList := updateMRU k s.fc.mruList } })
    else
      match diskRead s.disk k with
      | none => (.error .pathError, s)
      | some data =>
        (.ok data,
         { s with fc := { index := astore s.fc.index k { e with Data := data, InMemory := true }
                        , mruList := updateMRU k s.fc.mruList
                        , usedDiskBytes := s.fc.usedDiskBytes
                        , usedMemoryBytes := s.fc.usedMemoryBytes + (data.length : Int) } })

/-- `FileCache.Write` (src/common/filecache.go:197-242). The input reader
is already drained to `v` (`io.ReadAll`); a fresh zero entry is stored in
the index before the disk write, so it remains stored even when
`os.WriteFile` fails. -/
def writeGo (k : String) (v : List Nat) (s : CacheSt) : Except GoErr Unit × CacheSt :=
  let entrySizeStart : Int :=
    match alookup s.fc.index k with
    | some e => e.Size
    | none => 0
  let idx0 : List (String × FileCacheEntry) :=
    match alookup s.fc.index k with
    | some _ => s.fc.index
    | none => astore s.fc.index k ⟨[], false, 0⟩
  if k ∈ s.disk.writeFails then
    (.error .ioError, { s with fc := { s.fc with index := idx0 } })
  else
    (.ok (),
     { fc := { index := astore idx0 k ⟨v, true, (v.length : Int)⟩
             , mruList := updateMRU k s.fc.mruList
             , usedDiskBytes := s.fc.usedDiskBytes
             , usedMemoryBytes := s.fc.usedMemoryBytes + (v.length : Int) - entrySizeStart }
     , disk := diskWrite s.disk k v })

/-- The memory-eviction stop threshold `(RAMBytesMax * 90) / 100`
(src/common/filecache.go:278); Go's `/` on `int64` truncates toward zero,
which is `Int.tdiv`. -/
def ramThreshold (cfg : FileCacheConfig) : Int :=
  Int.tdiv (cfg.RAMBytesMax * 90) 100

/-- The disk-eviction stop threshold `(DiskBytesMax * 90) / 100`
(src/common/filecache.go:310). -/
def diskThreshold (cfg : FileCacheConfig) : Int :=
  Int.tdiv (cfg.DiskBytesMax * 90) 100

/-- One iteration of the `evictMemory` loop body
(src/common/filecache.go:279-303): take the least-recently-used key; if
its entry is `InMemory`, free `Data`, clear `InMemory` and decrement
`usedMemoryBytes` by its `Size`; in every case remove the tail node from
the recency list and `mruMap`. -/
def evictMemoryStep (fc : FileCache) : FileCache :=
  match fc.mruList.getLast? with
  | none => { fc with mruList := [] }
  | some fileName =>
    let fc1 :=
      match alookup fc.index fileName with
      | some e =>
        if e.InMemory then
          { fc with index := astore fc.index fileName { e with Data := [], InMemory := false }
                  , usedMemoryBytes := fc.usedMemoryBytes - e.Size }
        else fc
      | none => fc
    { fc1 with mruList := fc1.mruList.dropLast }

/-- The `evictMemory` loop with explicit fuel; each guarded iteration
shortens the recency list by one, so `mruList.length` fuel always reaches
the loop's own exit condition. -/
def evictMemoryLoop (cfg : FileCacheConfig) : Nat → FileCache → FileCache
  | 0, fc => fc
  | n + 1, fc =>
    if ramThreshold cfg < fc.usedMemoryBytes ∧ fc.mruList ≠ [] then
      evictMemoryLoop cfg n (evictMemoryStep fc)
    else fc

/-- `FileCache.evictMemory` (src/common/filecache.go:274-304). -/
def evictMemoryGo (cfg : FileCacheConfig) (fc : FileCache) : FileCache :=
  evictMemoryLoop cfg fc.mruList.length fc

/-- The bookkeeping tail of one `evictDisk` iteration
(src/common/filecache.go:331-342): drop the index entry (decrementing
`usedMemoryBytes` if it was in memory and `usedDiskBytes` always), then
remove the tail recency node. -/
def evictDiskEntryDrop (s : CacheSt) (fileName : String) : CacheSt :=
  let fc := s.fc
  let fc1 :=
    match alookup fc.index fileName with
    | some e =>
      { fc with usedMemoryBytes :=
                  if e.InMemory then fc.usedMemoryBytes - e.Size else fc.usedMemoryBytes
              , usedDiskBytes := fc.usedDiskBytes - e.Size
              , index := adelete fc.index fileName }
    | none => fc
  { s with fc := { fc1 with mruList := fc1.mruList.dropLast } }

/-- `FileCache.evictDisk` (src/common/filecache.go:306-344) with explicit
fuel; `none` means the loop has not reached its exit condition within the
given fuel.  When `os.Stat` succeeds but `os.Remove` fails the Go code
logs and `continue`s, re-entering the loop with completely unchanged
state; when `os.Stat` fails it logs and still drops the index entry and
recency node. -/
def evictDiskLoop (cfg : FileCacheConfig) : Nat → CacheSt → Option CacheSt
  | 0, _ => none
  | n + 1, s =>
    if diskThreshold cfg < s.fc.usedDiskBytes ∧ s.fc.mruList ≠ [] then
      match s.fc.mruList.getLast? with
      | none => some s
      | some fileName =>
        if (diskRead s.disk fileName).isSome then
          if fileName ∈ s.disk.removeFails then
            evictDiskLoop cfg n s
          else
            evictDiskLoop cfg n
              (evictDiskEntryDrop { s with disk := diskDelete s.disk fileName } fileName)
        else
          evictDiskLoop cfg n (evictDiskEntryDrop s fileName)
    else some s

/-- Environment for one `Service.Download` call (src/service/lib.go:210-251):
the results the collaborators would return.  `Cache.Get`/`Cache.Put` are
not defined under src/, so their outcomes are oracle fields; the
spec says `Read` fails with `NotFound` (the `os.ErrNotExist` sentinel) on
a miss, which is the `cacheGet = .error .errNotExist` case.
`stagingStat` is whether `os.Stat` on the upload-folder copy succeeds;
when it fails Go yields a `*fs.PathError`, never the bare sentinel. -/
structure DownloadEnv where
  cacheGet : Except GoErr FileCacheEntry
  stagingStat : Bool
  stagingRead : Except GoErr (List Nat)
  cachePutStaging : Except GoErr FileCacheEntry
  s3Download : Except GoErr (List Nat)
  cachePutRemote : Except GoErr FileCacheEntry
deriving Repr

/-- Observable outcome of `Service.Download`: the returned value and
whether `common.S3FileDownload` was ever invoked. -/
structure DlResult where
  res : Except GoErr (List Nat)
  s3Contacted : Bool
deriving Repr

/-- `Service.Download` (src/service/lib.go:210-251).  `err` mirrors the Go
`err` variable (`none` = `nil`); each guard is the literal identity
comparison `err == os.ErrNotExist` from the source. -/
def downloadGo (env : DownloadEnv) : DlResult :=
  let (err0, fce0) : Option GoErr × Option FileCacheEntry :=
    match env.cacheGet with
    | .ok f => (none, some f)
    | .error e => (some e, none)
  let (err1, fce1) : Option GoErr × Option FileCacheEntry :=
    if err0 = some .errNotExist then
      if env.stagingStat then
        match env.stagingRead with
        | .ok _ =>
          match env.cachePutStaging with
          | .ok f => (none, some f)
          | .error e => (some e, fce0)
        | .error e => (some e, fce0)
      else (some .pathError, fce0)
    else (err0, fce0)
  if err1 = some .errNotExist then
    match env.s3Download with
    | .ok _ =>
      match env.cachePutRemote with
      | .ok f => ⟨.ok f.Data, true⟩
      | .error e => ⟨.error e, true⟩
    | .error e => ⟨.error e, true⟩
  else
    match err1 with
    | some e => ⟨.error e, false⟩
    | none => ⟨.ok ((fce1.map (·.Data)).getD []), false⟩

/-- Outcome of one sync cycle: staging directory afterwards, serving
directory afterwards, the staged files whose upload was attempted (in
order), and whether the cycle finished without returning an error. -/
structure SyncResult where
  staging : List String
  serving : List String
  attempted : List String
  ok : Bool
deriving Repr, DecidableEq

/-- `Service.S3SyncOnce` (src/service/lib.go:175-208) acting on the
globbed staging list: upload each staged file in order; on
`S3FileUpload` failure (`upFails`) or `os.Remove` failure (`rmFails`)
return the error at once, leaving that file and all later ones staged;
on success the file is deleted from staging (never placed in serving). -/
def s3SyncOnceGo (upFails rmFails : List String) (serving : List String) :
    List String → SyncResult
  | [] => ⟨[], serving, [], true⟩
  | f :: rest =>
    if f ∈ upFails then ⟨f :: rest, serving, [f], false⟩
    else if f ∈ rmFails then ⟨f :: rest, serving, [f], false⟩
    else
      let r := s3SyncOnceGo upFails rmFails serving rest
      ⟨r.staging, r.serving, f :: r.attempted, r.ok⟩

/-- `Service.UploadsSyncToS3` (src/unnamed/part_001:176-208): like
`S3SyncOnce` it returns on the first failure, but on upload success it
`os.Rename`s the file into the cache serving directory. -/
def uploadsSyncToS3Go (upFails mvFails : List String) (serving : List String) :
    List String → SyncResult
  | [] => ⟨[], serving, [], true⟩
  | f :: rest =>
    if f ∈ upFails then ⟨f :: rest, serving, [f], false⟩
    else if f ∈ mvFails then ⟨f :: rest, serving, [f], false⟩
    else
      let r := uploadsSyncToS3Go upFails mvFails (f :: serving) rest
      ⟨r.staging, r.serving, f :: r.attempted, r.ok⟩

/-- One cycle of `syncUploadsToS3` (src/main.go:225-255): per-file
failures are logged and `continue` to the next file; on success the file
is renamed into the serving directory. -/
def syncUploadsCycleGo (upFails mvFails : List String) (serving : List String) :
    List String → SyncResult
  | [] => ⟨[], serving, [], true⟩
  | f :: rest =>
    if f ∈ upFails then
      let r := syncUploadsCycleGo upFails mvFails serving rest
      ⟨f :: r.staging, r.serving, f :: r.attempted, r.ok⟩
    else if f ∈ mvFails then
      let r := syncUploadsCycleGo upFails mvFails serving rest
      ⟨f :: r.staging, r.serving, f :: r.attempted, r.ok⟩
    else
      let r := syncUploadsCycleGo upFails mvFails (f :: serving) rest
      ⟨r.staging, r.serving, f :: r.attempted, r.ok⟩

theorem alookup_astore_self (l : List (String × FileCacheEntry)) (k : String)
    (e : FileCacheEntry) : alookup (astore l k e) k = some e := by
  induction l with
  | nil => simp [astore, alookup]
  | cons p rest ih =>
    obtain ⟨a, e'⟩ := p
    by_cases h : a = k
    · subst h; simp [astore, alookup]
    · simp [astore, alookup, h, ih]

theorem alookup_astore_ne (l : List (String × FileCacheEntry)) (k' k : String)
    (e : FileCacheEntry) (h : k' ≠ k) : alookup (astore l k' e) k = alookup l k := by
  induction l with
  | nil => simp [astore, alookup, h]
  | cons p rest ih =>
    obtain ⟨a, e'⟩ := p
    by_cases ha : a = k'
    · subst ha; simp [astore, alookup, h, ih]
    · by_cases hak : a = k
      · subst hak; simp [astore, alookup, ha, ih]
      · simp [astore, alookup, ha, hak, ih]

theorem keysOf_astore_of_isSome (l : List (String × FileCacheEntry)) (k : String)
    (e : FileCacheEntry) (h : (alookup l k).isSome) :
    keysOf (astore l k e) = keysOf l := by
  induction l with
  | nil => simp [alookup] at h
  | cons p rest ih =>
    obtain ⟨a, e'⟩ := p
    by_cases ha : a = k
    · subst ha; simp [astore, keysOf]
    · simp only [alookup, if_neg ha] at h
      simp [astore, keysOf, ha]
      exact ih h

theorem getLast_not_mem_dropLast (l : List String) (hnd : l.Nodup) (a : String)
    (h : l.getLast? = some a) : a ∉ l.dropLast := by
  intro hmem
  have heq : l.dropLast ++ [a] = l := List.dropLast_append_getLast? a h
  rw [← heq] at hnd
  rcases List.nodup_append.mp hnd with ⟨-, -, hdisj⟩
  exact hdisj hmem (by simp)

theorem evictMemoryStep_mruList (fc : FileCache) :
    (evictMemoryStep fc).mruList = fc.mruList.dropLast := by
  unfold evictMemoryStep
  cases h : fc.mruList.getLast? with
  | none => simp [List.getLast?_eq_none_iff.mp h]
  | some fileName =>
    cases halk : alookup fc.index fileName with
    | none => simp [halk]
    | some e => by_cases him : e.InMemory <;> simp [halk, him]

theorem evictMemoryStep_keysOf (fc : FileCache) :
    keysOf (evictMemoryStep fc).index = keysOf fc.index := by
  unfold evictMemoryStep
  cases h : fc.mruList.getLast? with
  | none => rfl
  | some fileName =>
    cases halk : alookup fc.index fileName with
    | none => simp [halk]
    | some e =>
      by_cases him : e.InMemory
      · have hs : (alookup fc.index fileName).isSome := by rw [halk]; rfl
        simp [halk, him, keysOf_astore_of_isSome fc.index fileName _ hs]
      · simp [halk, him]

theorem evictMemoryStep_alookup (fc : FileCache) (k : String)
    (h : fc.mruList.getLast? ≠ some k) :
    alookup (evictMemoryStep fc).index k = alookup fc.index k := by
  unfold evictMemoryStep
  cases hl : fc.mruList.getLast? with
  | none => rfl
  | some fileName =>
    have hne : fileName ≠ k := by
      intro he
      exact h (by rw [hl, he])
    cases halk : alookup fc.index fileName with
    | none => simp [halk]
    | some e =>
      by_cases him : e.InMemory
      · simp [halk, him, alookup_astore_ne _ _ _ _ hne]
      · simp [halk, him]

theorem evictMemoryLoop_keysOf (cfg : FileCacheConfig) :
    ∀ (n : Nat) (fc : FileCache),
      keysOf (evictMemoryLoop cfg n fc).index = keysOf fc.index := by
  intro n
  induction n with
  | zero => intro fc; rfl
  | succ n ih =>
    intro fc
    simp only [evictMemoryLoop]
    by_cases h : ramThreshold cfg < fc.usedMemoryBytes ∧ fc.mruList ≠ []
    · rw [if_pos h, ih, evictMemoryStep_keysOf]
    · rw [if_neg h]

theorem evictMemoryLoop_sublist (cfg : FileCacheConfig) :
    ∀ (n : Nat) (fc : FileCache),
      (evictMemoryLoop cfg n fc).mruList.Sublist fc.mruList := by
  intro n
  induction n with
  | zero => intro fc; exact List.Sublist.refl _
  | succ n ih =>
    intro fc
    simp only [evictMemoryLoop]
    by_cases h : ramThreshold cfg < fc.usedMemoryBytes ∧ fc.mruList ≠ []
    · rw [if_pos h]
      have h2 : (evictMemoryStep fc).mruList.Sublist fc.mruList := by
        rw [evictMemoryStep_mruList]
        exact List.dropLast_sublist _
      exact (ih _).trans h2
    · rw [if_neg h]

theorem evictMemoryLoop_post (cfg : FileCacheConfig) :
    ∀ (n : Nat) (fc : FileCache), fc.mruList.length ≤ n →
      (evictMemoryLoop cfg n fc).usedMemoryBytes ≤ ramThreshold cfg ∨
      (evictMemoryLoop cfg n fc).mruList = [] := by
  intro n
  induction n with
  | zero =>
    intro fc hlen
    exact Or.inr (List.length_eq_zero.mp (Nat.le_zero.mp hlen))
  | succ n ih =>
    intro fc hlen
    simp only [evictMemoryLoop]
    by_cases h : ramThreshold cfg < fc.usedMemoryBytes ∧ fc.mruList ≠ []
    · rw [if_pos h]
      apply ih
      rw [evictMemoryStep_mruList, List.length_dropLast]
      omega
    · rw [if_neg h]
      rw [not_and_or] at h
      rcases h with h | h
      · exact Or.inl (not_lt.mp h)
      · exact Or.inr (not_not.mp h)

theorem evictMemoryLoop_demoted (cfg : FileCacheConfig) :
    ∀ (n : Nat) (fc : FileCache) (k : String) (e e' : FileCacheEntry),
      fc.mruList.Nodup →
      alookup fc.index k = some e → e.InMemory = true →
      alookup (evictMemoryLoop cfg n fc).index k = some e' → e'.InMemory = false →
      k ∉ (evictMemoryLoop cfg n fc).mruList := by
  intro n
  induction n with
  | zero =>
    intro fc k e e' _ h1 h2 h3 h4
    have : e = e' := by
      have : some e = some e' := h1.symm.trans h3
      injection this
    subst this
    rw [h2] at h4
    cases h4
  | succ n ih =>
    intro fc k e e' hnd h1 h2 h3 h4
    simp only [evictMemoryLoop] at h3 ⊢
    by_cases hg : ramThreshold cfg < fc.usedMemoryBytes ∧ fc.mruList ≠ []
    · rw [if_pos hg] at h3 ⊢
      cases hl : fc.mruList.getLast? with
      | none => exact absurd (List.getLast?_eq_none_iff.mp hl) hg.2
      | some a =>
        by_cases hk : a = k
        · subst hk
          have hnm : a ∉ (evictMemoryStep fc).mruList := by
            rw [evictMemoryStep_mruList]
            exact getLast_not_mem_dropLast fc.mruList hnd a hl
          intro hmem
          exact hnm ((evictMemoryLoop_sublist cfg n (evictMemoryStep fc)).subset hmem)
        · have hpre : alookup (evictMemoryStep fc).index k = some e := by
            rw [evictMemoryStep_alookup fc k (by rw [hl]; intro hc; injection hc with hc; exact hk hc)]
            exact h1
          have hnd' : (evictMemoryStep fc).mruList.Nodup := by
            rw [evictMemoryStep_mruList]
            exact hnd.sublist (List.dropLast_sublist _)
          exact ih (evictMemoryStep fc) k e e' hnd' hpre h2 h3 h4
    · rw [if_neg hg] at h3 ⊢
      have : e = e' := by
        have : some e = some e' := h1.symm.trans h3
        injection this
      subst this
      rw [h2] at h4
      cases h4

theorem evictDiskLoop_post (cfg : FileCacheConfig) :
    ∀ (n : Nat) (s s' : CacheSt), evictDiskLoop cfg n s = some s' →
      s'.fc.usedDiskBytes ≤ diskThreshold cfg ∨ s'.fc.mruList = [] := by
  intro n
  induction n with
  | zero => intro s s' h; cases h
  | succ n ih =>
    intro s s' h
    simp only [evictDiskLoop] at h
    by_cases hg : diskThreshold cfg < s.fc.usedDiskBytes ∧ s.fc.mruList ≠ []
    · rw [if_pos hg] at h
      split at h
      next heq =>
        injection h with h
        subst h
        exact absurd (List.getLast?_eq_none_iff.mp heq) hg.2
      next fileName heq =>
        split at h
        next hstat =>
          split at h
          next hrm => exact ih _ _ h
          next hrm => exact ih _ _ h
        next hstat => exact ih _ _ h
    · rw [if_neg hg] at h
      injection h with h
      subst h
      rw [not_and_or] at hg
      rcases hg with hg | hg
      · exact Or.inl (not_lt.mp hg)
      · exact Or.inr (not_not.mp hg)

/-- Fresh cache over an empty backing directory. -/
def s0fresh : CacheSt := initGo ⟨[], [], []⟩

/-- C1: the claimed counter invariant fails at the very first `Write` on a
freshly initialized cache: `Write` persists the bytes and indexes the
entry but never adds the written size to `usedDiskBytes`, so the tracked
used-disk counter (0) differs from the sum of `Size` over all index
entries (3). -/
theorem write_skips_usedDiskBytes_accounting :
    (writeGo "k" [1, 2, 3] s0fresh).1 = .ok () ∧
    (writeGo "k" [1, 2, 3] s0fresh).2.fc.usedDiskBytes = 0 ∧
    sumAllSizes (writeGo "k" [1, 2, 3] s0fresh).2.fc.index = 3 ∧
    (writeGo "k" [1, 2, 3] s0fresh).2.fc.usedDiskBytes ≠
      sumAllSizes (writeGo "k" [1, 2, 3] s0fresh).2.fc.index :=
  ⟨rfl, by decide, by decide, by decide⟩

/-- A download environment where the cache misses with the sentinel
`os.ErrNotExist`, the staging copy is absent (`os.Stat` fails with a
`*fs.PathError`), and the remote store does hold the object. -/
def envMiss : DownloadEnv :=
  ⟨.error .errNotExist, false, .error .pathError, .error .ioError, .ok [7], .ok ⟨[7], true, 1⟩⟩

/-- C2: with a cache miss and no staged copy, `Download` returns the
`*fs.PathError` produced by `os.Stat` and never contacts the remote
store, although the remote holds the object: after the staging check the
`err == os.ErrNotExist` identity comparison can no longer match. -/
theorem download_dead_remote_fallback :
    envMiss.cacheGet = Except.error GoErr.errNotExist ∧
    envMiss.stagingStat = false ∧
    envMiss.s3Download = Except.ok [7] ∧
    downloadGo envMiss = ⟨.error .pathError, false⟩ :=
  ⟨rfl, rfl, rfl, rfl⟩

/-- Configuration with `RAMBytesMax = 10` (memory threshold 9) and a
large disk budget. -/
def cfg3 : FileCacheConfig := ⟨100, 10⟩

/-- One in-memory entry of size 20 over the memory budget; its disk copy
is untouched by the memory pass (which takes no disk argument at all). -/
def fc3 : FileCache := ⟨[("a", ⟨[0, 1], true, 20⟩)], ["a"], 5, 20⟩

/-- C3 counterexample: the memory-eviction pass demotes key `a` (entry
kept in the index, `InMemory` now false) yet removes its recency-list
node, contradicting the claim that a demoted key keeps its node. -/
theorem memory_demotion_removes_recency_node_cex :
    alookup (evictMemoryGo cfg3 fc3).index "a" = some ⟨[], false, 20⟩ ∧
    "a" ∉ (evictMemoryGo cfg3 fc3).mruList := by
  decide

/-- C3 amended: a key demoted by the memory pass stays in the index (the
pass never creates or deletes index entries), but its recency-list node
is removed by that same pass rather than persisting until disk
eviction. -/
theorem memory_demotion_keeps_index_drops_recency (cfg : FileCacheConfig)
    (fc : FileCache) (k : String) (e e' : FileCacheEntry)
    (hnd : fc.mruList.Nodup)
    (h1 : alookup fc.index k = some e) (h2 : e.InMemory = true)
    (h3 : alookup (evictMemoryGo cfg fc).index k = some e')
    (h4 : e'.InMemory = false) :
    keysOf (evictMemoryGo cfg fc).index = keysOf fc.index ∧
    k ∉ (evictMemoryGo cfg fc).mruList :=
  ⟨evictMemoryLoop_keysOf cfg fc.mruList.length fc,
   evictMemoryLoop_demoted cfg fc.mruList.length fc k e e' hnd h1 h2 h3 h4⟩

/-- Witness for [memory_demotion_keeps_index_drops_recency] at the
concrete demotion of key `a`. -/
theorem memory_demotion_keeps_index_drops_recency_witness :
    fc3.mruList.Nodup ∧
    alookup fc3.index "a" = some ⟨[0, 1], true, 20⟩ ∧
    (FileCacheEntry.mk [0, 1] true 20).InMemory = true ∧
    alookup (evictMemoryGo cfg3 fc3).index "a" = some ⟨[], false, 20⟩ ∧
    (FileCacheEntry.mk [] false 20).InMemory = false ∧
    (keysOf (evictMemoryGo cfg3 fc3).index = keysOf fc3.index ∧
      "a" ∉ (evictMemoryGo cfg3 fc3).mruList) :=
  ⟨by decide, by decide, by decide, by decide, by decide,
   memory_demotion_keeps_index_drops_recency cfg3 fc3 "a" ⟨[0, 1], true, 20⟩ ⟨[], false, 20⟩
     (by decide) (by decide) (by decide) (by decide) (by decide)⟩

theorem s3SyncOnceGo_head_attempted (upFails rmFails serving : List String)
    (g : String) (rest : List String) :
    g ∈ (s3SyncOnceGo upFails rmFails serving (g :: rest)).attempted := by
  simp only [s3SyncOnceGo]
  split_ifs <;> simp

theorem s3SyncOnceGo_abort (upFails : List String) (pre : List String) (f : String)
    (post serving : List String)
    (hpre : ∀ g ∈ pre, g ∉ upFails) (hf : f ∈ upFails) :
    (s3SyncOnceGo upFails [] serving (pre ++ f :: post)).staging = f :: post ∧
    (s3SyncOnceGo upFails [] serving (pre ++ f :: post)).attempted = pre ++ [f] ∧
    (s3SyncOnceGo upFails [] serving (pre ++ f :: post)).ok = false := by
  induction pre with
  | nil => simp [s3SyncOnceGo, hf]
  | cons g pre' ih =>
    have hg : g ∉ upFails := hpre g (List.mem_cons_self g pre')
    have ih' := ih (fun x hx => hpre x (List.mem_cons_of_mem g hx))
    simp only [List.cons_append, s3SyncOnceGo, List.append_eq]
    rw [if_neg hg, if_neg (List.not_mem_nil g)]
    refine ⟨ih'.1, ?_, ih'.2.2⟩
    show g :: (s3SyncOnceGo upFails [] serving (pre' ++ f :: post)).attempted = g :: (pre' ++ [f])
    rw [ih'.2.1]

theorem syncUploadsCycleGo_attempted (upFails mvFails : List String) :
    ∀ (files serving : List String),
      (syncUploadsCycleGo upFails mvFails serving files).attempted = files := by
  intro files
  induction files with
  | nil => intro serving; rfl
  | cons f rest ih =>
    intro serving
    simp only [syncUploadsCycleGo]
    split_ifs <;> simp [ih]

theorem s3SyncOnceGo_all_ok (upFails : List String) :
    ∀ (staging serving : List String), (∀ f ∈ staging, f ∉ upFails) →
      (s3SyncOnceGo upFails [] serving staging).staging = [] ∧
      (s3SyncOnceGo upFails [] serving staging).serving = serving := by
  intro staging
  induction staging with
  | nil => intro serving _; exact ⟨rfl, rfl⟩
  | cons f rest ih =>
    intro serving h
    have hf : f ∉ upFails := h f (List.mem_cons_self f rest)
    have ih' := ih serving (fun x hx => h x (List.mem_cons_of_mem f hx))
    simp only [s3SyncOnceGo]
    rw [if_neg hf, if_neg (List.not_mem_nil f)]
    exact ih'

theorem uploadsSyncToS3Go_all_ok (upFails : List String) :
    ∀ (staging serving : List String), (∀ f ∈ staging, f ∉ upFails) →
      (uploadsSyncToS3Go upFails [] serving staging).staging = [] ∧
      ∀ x, (x ∈ staging ∨ x ∈ serving) →
        x ∈ (uploadsSyncToS3Go upFails [] serving staging).serving := by
  intro staging
  induction staging with
  | nil =>
    intro serving _
    refine ⟨rfl, ?_⟩
    intro x hx
    rcases hx with hx | hx
    · cases hx
    · exact hx
  | cons f rest ih =>
    intro serving h
    have hf : f ∉ upFails := h f (List.mem_cons_self f rest)
    have ih' := ih (f :: serving) (fun x hx => h x (List.mem_cons_of_mem f hx))
    simp only [uploadsSyncToS3Go]
    rw [if_neg hf, if_neg (List.not_mem_nil f)]
    refine ⟨ih'.1, ?_⟩
    intro x hx
    apply ih'.2
    rcases hx with hx | hx
    · rcases List.mem_cons.mp hx with hx | hx
      · exact Or.inr (hx ▸ List.mem_cons_self f serving)
      · exact Or.inl hx
    · exact Or.inr (List.mem_cons_of_mem f hx)

/-- C4 counterexample: with staging `["a", "b"]` and the upload of `a`
failing, `S3SyncOnce` returns after attempting only `a`: file `b`,
although staged, is not attempted in the same cycle. -/
theorem upload_failure_aborts_cycle_cex :
    "b" ∈ (["a", "b"] : List String) ∧
    (s3SyncOnceGo ["a"] [] [] ["a", "b"]).ok = false ∧
    "b" ∉ (s3SyncOnceGo ["a"] [] [] ["a", "b"]).attempted ∧
    "b" ∈ (s3SyncOnceGo ["a"] [] [] ["a", "b"]).staging := by
  decide

/-- C4 amended: in `S3SyncOnce` an upload failure aborts the cycle — the
staged files after the failed one are not attempted until the next cycle —
but the failed file and all later ones remain in the staging directory,
and the failed file is attempted again on the next cycle (never silently
dropped); the legacy `syncUploadsToS3` loop of main.go does attempt every
staged file despite per-file failures. -/
theorem upload_failure_abort_and_retry (upFails : List String) (pre : List String)
    (f : String) (post serving : List String)
    (hpre : ∀ g ∈ pre, g ∉ upFails) (hf : f ∈ upFails) :
    (s3SyncOnceGo upFails [] serving (pre ++ f :: post)).staging = f :: post ∧
    (s3SyncOnceGo upFails [] serving (pre ++ f :: post)).attempted = pre ++ [f] ∧
    (s3SyncOnceGo upFails [] serving (pre ++ f :: post)).ok = false ∧
    f ∈ (s3SyncOnceGo upFails [] serving (f :: post)).attempted ∧
    ∀ (mvFails files serving' : List String),
      (syncUploadsCycleGo upFails mvFails serving' files).attempted = files := by
  obtain ⟨h1, h2, h3⟩ := s3SyncOnceGo_abort upFails pre f post serving hpre hf
  exact ⟨h1, h2, h3, s3SyncOnceGo_head_attempted upFails [] serving f post,
    fun mvFails files serving' => syncUploadsCycleGo_attempted upFails mvFails files serving'⟩

/-- Witness for [upload_failure_abort_and_retry] with staging
`["a", "b"]` and the upload of `a` failing. -/
theorem upload_failure_abort_and_retry_witness :
    (∀ g ∈ ([] : List String), g ∉ (["a"] : List String)) ∧
    "a" ∈ (["a"] : List String) ∧
    ((s3SyncOnceGo ["a"] [] [] ([] ++ "a" :: ["b"])).staging = "a" :: ["b"] ∧
      (s3SyncOnceGo ["a"] [] [] ([] ++ "a" :: ["b"])).attempted = [] ++ ["a"] ∧
      (s3SyncOnceGo ["a"] [] [] ([] ++ "a" :: ["b"])).ok = false ∧
      "a" ∈ (s3SyncOnceGo ["a"] [] [] ("a" :: ["b"])).attempted ∧
      ∀ (mvFails files serving' : List String),
        (syncUploadsCycleGo ["a"] mvFails serving' files).attempted = files) :=
  ⟨by decide, by decide,
   upload_failure_abort_and_retry ["a"] [] "a" ["b"] [] (by decide) (by decide)⟩

/-- C5 counterexample: staging holds only `a`, its upload succeeds, and
after the `S3SyncOnce` cycle `a` is gone from staging but absent from the
serving directory as well — the code deletes the staged file instead of
relocating it. -/
theorem upload_success_missing_from_serving_cex :
    (s3SyncOnceGo [] [] [] ["a"]).ok = true ∧
    (s3SyncOnceGo [] [] [] ["a"]).staging = [] ∧
    "a" ∉ (s3SyncOnceGo [] [] [] ["a"]).serving := by
  decide

/-- C5 amended: a staged file whose upload succeeds is afterwards absent
from the staging directory, but `S3SyncOnce` leaves the serving directory
untouched (the file is only deleted); the legacy `UploadsSyncToS3`
variant instead renames every successfully uploaded file into the serving
directory. -/
theorem upload_success_staging_and_serving (upFails staging serving : List String)
    (h : ∀ f ∈ staging, f ∉ upFails) :
    (s3SyncOnceGo upFails [] serving staging).staging = [] ∧
    (s3SyncOnceGo upFails [] serving staging).serving = serving ∧
    (uploadsSyncToS3Go upFails [] serving staging).staging = [] ∧
    ∀ f ∈ staging, f ∈ (uploadsSyncToS3Go upFails [] serving staging).serving := by
  obtain ⟨h1, h2⟩ := s3SyncOnceGo_all_ok upFails staging serving h
  obtain ⟨h3, h4⟩ := uploadsSyncToS3Go_all_ok upFails staging serving h
  exact ⟨h1, h2, h3, fun f hf => h4 f (Or.inl hf)⟩

/-- Witness for [upload_success_staging_and_serving] with staging
`["a"]` and no failures. -/
theorem upload_success_staging_and_serving_witness :
    (∀ f ∈ (["a"] : List String), f ∉ ([] : List String)) ∧
    ((s3SyncOnceGo [] [] [] ["a"]).staging = [] ∧
      (s3SyncOnceGo [] [] [] ["a"]).serving = [] ∧
      (uploadsSyncToS3Go [] [] [] ["a"]).staging = [] ∧
      ∀ f ∈ (["a"] : List String), f ∈ (uploadsSyncToS3Go [] [] [] ["a"]).serving) :=
  ⟨by decide, upload_success_staging_and_serving [] ["a"] [] (by decide)⟩

/-- Configuration with `DiskBytesMax = 10`, so the disk threshold is 9. -/
def cfg6 : FileCacheConfig := ⟨10, 100⟩

/-- A state over the disk budget whose only LRU key `a` has a backing
file that `os.Stat` finds but `os.Remove` persistently fails to delete. -/
def s6 : CacheSt :=
  ⟨⟨[("a", ⟨[], false, 100⟩)], ["a"], 100, 0⟩, ⟨[("a", [0])], ["a"], []⟩⟩

/-- C6: when deleting a key's backing file fails, `evictDisk` logs and
`continue`s with completely unchanged state, so the sweep re-selects the
same LRU node forever: it never reaches its exit condition for any amount
of fuel — the cycle is neither abandoned nor does the sweep terminate. -/
theorem evictDisk_remove_failure_never_finishes :
    ∀ n, evictDiskLoop cfg6 n s6 = none := by
  have hg : diskThreshold cfg6 < s6.fc.usedDiskBytes ∧ s6.fc.mruList ≠ [] := by decide
  have hstep : ∀ m, evictDiskLoop cfg6 (m + 1) s6 = evictDiskLoop cfg6 m s6 := by
    intro m
    simp only [evictDiskLoop]
    rw [if_pos hg]
    show (if (diskRead s6.disk "a").isSome = true then
            if "a" ∈ s6.disk.removeFails then evictDiskLoop cfg6 m s6
            else evictDiskLoop cfg6 m
              (evictDiskEntryDrop { s6 with disk := diskDelete s6.disk "a" } "a")
          else evictDiskLoop cfg6 m (evictDiskEntryDrop s6 "a")) =
        evictDiskLoop cfg6 m s6
    rw [if_pos (by decide), if_pos (by decide)]
  intro n
  induction n with
  | zero => rfl
  | succ n ih => rw [hstep n]; exact ih

/-- C7: whenever an eviction pass completes, usage is at or below 90% of
the corresponding budget or the recency list is empty: the memory pass
always completes with `usedMemoryBytes ≤ (RAMBytesMax*90)/100` or an
empty list, and any disk pass that completes ends with
`usedDiskBytes ≤ (DiskBytesMax*90)/100` or an empty list. -/
theorem eviction_passes_stop_at_threshold (cfg : FileCacheConfig) (fc : FileCache)
    (n : Nat) (s s' : CacheSt) (h : evictDiskLoop cfg n s = some s') :
    ((evictMemoryGo cfg fc).usedMemoryBytes ≤ ramThreshold cfg ∨
      (evictMemoryGo cfg fc).mruList = []) ∧
    (s'.fc.usedDiskBytes ≤ diskThreshold cfg ∨ s'.fc.mruList = []) :=
  ⟨evictMemoryLoop_post cfg fc.mruList.length fc (le_refl _),
   evictDiskLoop_post cfg n s s' h⟩

/-- Witness for [eviction_passes_stop_at_threshold]: a concrete disk pass
over budget completes in 5 steps and lands at or below the threshold. -/
theorem eviction_passes_stop_at_threshold_witness :
    evictDiskLoop ⟨10, 100⟩ 5
        ⟨⟨[("a", ⟨[0], true, 20⟩)], ["a"], 20, 20⟩, ⟨[("a", [0])], [], []⟩⟩ =
      some ⟨⟨[], [], 0, 0⟩, ⟨[], [], []⟩⟩ ∧
    (((evictMemoryGo ⟨10, 100⟩ ⟨[("a", ⟨[0], true, 20⟩)], ["a"], 20, 20⟩).usedMemoryBytes ≤
        ramThreshold ⟨10, 100⟩ ∨
      (evictMemoryGo ⟨10, 100⟩ ⟨[("a", ⟨[0], true, 20⟩)], ["a"], 20, 20⟩).mruList = []) ∧
     ((⟨⟨[], [], 0, 0⟩, ⟨[], [], []⟩⟩ : CacheSt).fc.usedDiskBytes ≤ diskThreshold ⟨10, 100⟩ ∨
      (⟨⟨[], [], 0, 0⟩, ⟨[], [], []⟩⟩ : CacheSt).fc.mruList = [])) :=
  ⟨by decide,
   eviction_passes_stop_at_threshold ⟨10, 100⟩ ⟨[("a", ⟨[0], true, 20⟩)], ["a"], 20, 20⟩ 5
     ⟨⟨[("a", ⟨[0], true, 20⟩)], ["a"], 20, 20⟩, ⟨[("a", [0])], [], []⟩⟩
     ⟨⟨[], [], 0, 0⟩, ⟨[], [], []⟩⟩ (by decide)⟩

/-- C8: a `Write(k, v)` whose disk write succeeds, immediately followed
by `Read(k)`, returns exactly `v`, and after the write the entry's
residency is in-memory (write-through). -/
theorem write_then_read_roundtrip (k : String) (v : List Nat) (s : CacheSt)
    (h : k ∉ s.disk.writeFails) :
    (writeGo k v s).1 = .ok () ∧
    (readGo k (writeGo k v s).2).1 = .ok v ∧
    ∃ e, alookup (writeGo k v s).2.fc.index k = some e ∧ e.InMemory = true := by
  have halk : alookup (writeGo k v s).2.fc.index k = some ⟨v, true, (v.length : Int)⟩ := by
    simp [writeGo, h, alookup_astore_self]
  refine ⟨by simp [writeGo, h], ?_, ⟨_, halk, rfl⟩⟩
  simp [readGo, halk]

/-- Witness for [write_then_read_roundtrip] on a fresh cache. -/
theorem write_then_read_roundtrip_witness :
    "k" ∉ s0fresh.disk.writeFails ∧
    ((writeGo "k" [7, 8] s0fresh).1 = .ok () ∧
     (readGo "k" (writeGo "k" [7, 8] s0fresh).2).1 = .ok [7, 8] ∧
     ∃ e, alookup (writeGo "k" [7, 8] s0fresh).2.fc.index "k" = some e ∧
       e.InMemory = true) :=
  ⟨by decide, write_then_read_roundtrip "k" [7, 8] s0fresh (by decide)⟩

/-- C10: `Read` — on a miss, an I/O failure, a memory hit or a disk
promotion — preserves the index key set, the whole backing directory and
`usedDiskBytes`; it never creates or deletes index entries. -/
theorem read_frame_preserved (k : String) (s : CacheSt) :
    keysOf (readGo k s).2.fc.index = keysOf s.fc.index ∧
    (readGo k s).2.disk = s.disk ∧
    (readGo k s).2.fc.usedDiskBytes = s.fc.usedDiskBytes := by
  unfold readGo
  cases halk : alookup s.fc.index k with
  | none => exact ⟨rfl, rfl, rfl⟩
  | some e =>
    by_cases him : e.InMemory
    · simp [him]
    · cases hd : diskRead s.disk k with
      | none => simp [him, hd]
      | some data =>
        have hs : (alookup s.fc.index k).isSome := by rw [halk]; rfl
        simp [him, hd, keysOf_astore_of_isSome s.fc.index k _ hs]
